import Mathlib

/-!
Shallow embedding of the freight-simulation engine
(`BBCmapss/backend/freight_simulation/{models,simulation}.py`).

Numbers (Python floats) are modelled as rationals, so all arithmetic is
exact.  Python dicts keyed by node id are modelled as association lists
looked up by first match; mutation of a node object is modelled as a map
over the node list rewriting the entries with the matching id.  The
NetworkX `DiGraph` built by `FreightSimulation._build_graph` is modelled
as a list of built edges where a repeated `add_edge(u, v)` overwrites the
earlier one, i.e. lookup takes the last matching entry.
`nx.dijkstra_path` is modelled by an executable Dijkstra loop
(`dijkstraLoop`): repeatedly settle the tentative entry of least
distance; it is proved below to return weight-minimal paths when all
edge weights are non-negative, which is the semantics the engine relies
on.
-/

namespace Freight

/-- Python `int()` applied to a (real) quotient truncates toward zero:
floor for non-negative arguments, ceiling for negative ones.  This is
the conversion `int(lat / self.grid_size)` performs in
`WeatherGrid.get_block_key`. -/
def pytrunc (q : ℚ) : ℤ :=
  if 0 ≤ q then ⌊q⌋ else ⌈q⌉

/-- `models.WeatherGrid`: a grid size (default 5 degrees) and a mapping
from block keys to severities, modelled as an association list. -/
structure WeatherGrid where
  grid_size : ℚ
  grid : List ((ℚ × ℚ) × ℚ)
deriving DecidableEq

/-- `WeatherGrid.get_block_key`: `int(lat / grid_size) * grid_size` for
each coordinate (truncation toward zero, then scaled back). -/
def WeatherGrid.get_block_key (wg : WeatherGrid) (lat lon : ℚ) : ℚ × ℚ :=
  ((pytrunc (lat / wg.grid_size) : ℚ) * wg.grid_size,
   (pytrunc (lon / wg.grid_size) : ℚ) * wg.grid_size)

/-- Python dict assignment `grid[key] = v` on an association list:
overwrite the existing binding if present, otherwise append. -/
def assocSet (l : List ((ℚ × ℚ) × ℚ)) (k : ℚ × ℚ) (v : ℚ) :
    List ((ℚ × ℚ) × ℚ) :=
  if l.any (fun p => p.1 == k) then
    l.map (fun p => if p.1 == k then (k, v) else p)
  else
    l ++ [(k, v)]

/-- `WeatherGrid.set_severity`: rejects severities outside `[0, 1]`
before any mutation, otherwise upserts the block. -/
def WeatherGrid.set_severity (wg : WeatherGrid) (lat lon severity : ℚ) :
    Except String WeatherGrid :=
  if severity < 0 ∨ 1 < severity then
    .error "Severity must be between 0 and 1"
  else
    .ok { wg with grid := assocSet wg.grid (wg.get_block_key lat lon) severity }

/-- `WeatherGrid.get_severity`: dict lookup of the block containing the
point, defaulting to `0.0`. -/
def WeatherGrid.get_severity (wg : WeatherGrid) (lat lon : ℚ) : ℚ :=
  match wg.grid.find? (fun p => p.1 == wg.get_block_key lat lon) with
  | some p => p.2
  | none => 0

/-- `models.Node` (the fields the engine reads; the redundant adjacency
list `connections` is omitted). -/
structure SimNode where
  id : String
  lat : ℚ
  lon : ℚ
  name : String
  type : String
  country : String
  delay : ℚ
  blocked : Bool
  connections_count : ℕ
deriving DecidableEq

/-- `models.Edge` base data (the mutable `current_*` fields are
recomputed from these and the weather impact on every graph rebuild,
so they are derived, not stored). -/
structure SimEdge where
  source : String
  destination : String
  mode : String
  base_duration : ℚ
  base_emissions : ℚ
  base_cost : ℚ
deriving DecidableEq

/-- `models.PainPoint`. -/
structure PainPoint where
  node_id : String
  event_type : String
  name : String
  delay_increase : ℚ
  blocked : Bool
deriving DecidableEq

/-- The `FreightSimulation.weights` dict (keys duration / emissions /
cost; defaults 0.4, 0.3, 0.3). -/
structure OWeights where
  duration : ℚ
  emissions : ℚ
  cost : ℚ
deriving DecidableEq

/-- An edge of the built NetworkX graph: the attribute dict stored by
`_build_graph`'s `add_edge` call (`duration` already includes the source
node's delay). -/
structure BEdge where
  src : String
  dst : String
  mode : String
  duration : ℚ
  emissions : ℚ
  cost : ℚ
  weather_impact : ℚ
deriving DecidableEq

/-- Dict lookup `self.nodes[nid]` / `nid in self.nodes`. -/
def findNode (nodes : List SimNode) (nid : String) : Option SimNode :=
  nodes.find? (fun m => m.id == nid)

/-- `FreightSimulation._build_graph`: skip edges with a blocked
endpoint; sample weather severity at the edge midpoint; recompute the
current attributes (`Edge.update_values`) and add the source node's
delay to the duration.  Edges whose endpoints are missing from the
registry are skipped (Python would raise a `KeyError`; in the states
the engine constructs every edge endpoint is registered). -/
def build_graph (nodes : List SimNode) (edges : List SimEdge)
    (wg : WeatherGrid) : List BEdge :=
  edges.filterMap (fun e =>
    match findNode nodes e.source, findNode nodes e.destination with
    | some ns, some nd =>
      if ns.blocked || nd.blocked then none
      else
        let impact := wg.get_severity ((ns.lat + nd.lat) / 2) ((ns.lon + nd.lon) / 2)
        some { src := e.source, dst := e.destination, mode := e.mode,
               duration := e.base_duration * (1 + impact * 2) + ns.delay,
               emissions := e.base_emissions * (1 + impact * 2),
               cost := e.base_cost * (1 + impact * (3 / 2)),
               weather_impact := impact }
    | _, _ => none)

/-- The mutable state of a `FreightSimulation` instance (after
initialization; the data-ingestion phase is out of scope). -/
structure SimState where
  nodes : List SimNode
  edges : List SimEdge
  weather_grid : WeatherGrid
  pain_points : List PainPoint
  weights : OWeights
  graph : List BEdge
deriving DecidableEq

/-- Registry lookup `self.nodes[nid]`. -/
def getNode (s : SimState) (nid : String) : Option SimNode :=
  findNode s.nodes nid

/-- `FreightSimulation.update_weather`: validate and set the severity,
then rebuild the graph.  An invalid severity raises before any state
change. -/
def update_weather (s : SimState) (lat lon severity : ℚ) :
    Except String SimState :=
  match s.weather_grid.set_severity lat lon severity with
  | .error msg => .error msg
  | .ok wg =>
      .ok { s with weather_grid := wg,
                   graph := build_graph s.nodes s.edges wg }

/-- `FreightSimulation.update_port_delay`: clamp the hours to
`[0, 24]`, store them as the node's delay, rebuild; a missing node id
leaves the state unchanged. -/
def update_port_delay (s : SimState) (node_id : String) (delay_hours : ℚ) :
    SimState :=
  if s.nodes.any (fun m => m.id == node_id) then
    let nodes' := s.nodes.map (fun m =>
      if m.id == node_id then { m with delay := max 0 (min 24 delay_hours) } else m)
    { s with nodes := nodes',
             graph := build_graph nodes' s.edges s.weather_grid }
  else s

/-- `FreightSimulation.add_pain_point`: returns `false` (state
unchanged) for an unknown node; otherwise appends the pain point, adds
`delay_increase` to the node's delay, *assigns* the supplied `blocked`
flag to the node (plain assignment, not an OR with the previous value),
rebuilds, and returns `true`. -/
def add_pain_point (s : SimState) (node_id event_type name : String)
    (delay_increase : ℚ) (blocked : Bool) : SimState × Bool :=
  if s.nodes.any (fun m => m.id == node_id) then
    let pps := s.pain_points ++ [⟨node_id, event_type, name, delay_increase, blocked⟩]
    let nodes' := s.nodes.map (fun m =>
      if m.id == node_id then
        { m with delay := m.delay + delay_increase, blocked := blocked }
      else m)
    ({ s with pain_points := pps, nodes := nodes',
              graph := build_graph nodes' s.edges s.weather_grid }, true)
  else (s, false)

/-- `FreightSimulation.remove_pain_point`: for a valid index, pop the
entry, subtract its `delay_increase` from the node's delay (no floor),
reset `blocked` to `false` and then set it back to `true` exactly when
some remaining pain point on the same node has `blocked = true`
(i.e. recompute it as the OR over the remaining pain points), rebuild,
and return `true`; an invalid index returns `false` unchanged. -/
def remove_pain_point (s : SimState) (index : ℕ) : SimState × Bool :=
  if h : index < s.pain_points.length then
    let pp := s.pain_points.get ⟨index, h⟩
    let remaining := s.pain_points.eraseIdx index
    let nodes' := s.nodes.map (fun m =>
      if m.id == pp.node_id then
        { m with delay := m.delay - pp.delay_increase,
                 blocked := remaining.any (fun q => q.node_id == pp.node_id && q.blocked) }
      else m)
    ({ s with pain_points := remaining, nodes := nodes',
              graph := build_graph nodes' s.edges s.weather_grid }, true)
  else (s, false)

/-- The intermediate weights dict of `FreightSimulation.update_weights`
after the three optional assignments, before normalization. -/
def applyWeightArgs (W : OWeights) (duration emissions cost : Option ℚ) :
    OWeights :=
  let w1 := match duration with | some d => { W with duration := d } | none => W
  let w2 := match emissions with | some e => { w1 with emissions := e } | none => w1
  match cost with | some c => { w2 with cost := c } | none => w2

/-- Sum of the three objective weights. -/
def sumW (W : OWeights) : ℚ :=
  W.duration + W.emissions + W.cost

/-- `FreightSimulation.update_weights`: assign the supplied values, then
divide each weight by the total — but only when the total is positive;
otherwise the weights are left exactly as assigned. -/
def update_weights (s : SimState) (duration emissions cost : Option ℚ) :
    SimState :=
  let w := applyWeightArgs s.weights duration emissions cost
  let total := sumW w
  if 0 < total then
    { s with weights := ⟨w.duration / total, w.emissions / total, w.cost / total⟩ }
  else
    { s with weights := w }

/-- Adjacency lookup `self.graph[u][v]` of the built `DiGraph`: the last
matching `add_edge` wins, so take the last matching built edge. -/
def lookupEdge (g : List BEdge) (u v : String) : Option BEdge :=
  g.reverse.find? (fun e => u == e.src && v == e.dst)

/-- The scalar edge weight of `find_shortest_path.weight_function`:
normalize by the fixed maxima 100 h / 1000 t / 5000 units and combine
with the current objective weights. -/
def edgeWeight (W : OWeights) (e : BEdge) : ℚ :=
  W.duration * (e.duration / 100) + W.emissions * (e.emissions / 1000) +
    W.cost * (e.cost / 5000)

/-- Scalar weight of the step `u → v` in the built graph (`0` if the
edge is absent; only used along existing edges). -/
def stepW (W : OWeights) (g : List BEdge) (u v : String) : ℚ :=
  match lookupEdge g u v with
  | some e => edgeWeight W e
  | none => 0

/-- Whether the built graph has an edge `u → v`. -/
def hasEdge (g : List BEdge) (u v : String) : Bool :=
  (lookupEdge g u v).isSome

/-- `IsChain g a vs` - starting at vertex `a`, the successive vertices
`vs` are each reached by an edge of `g`; together with `lastOf` this is
the notion of an `a`-to-target path in the effective graph (the full
vertex sequence of the path is `a :: vs`). -/
def IsChain (g : List BEdge) : String → List String → Prop
  | _, [] => True
  | a, v :: rest => hasEdge g a v = true ∧ IsChain g v rest

/-- Final vertex of the path `a :: vs`. -/
def lastOf (a : String) (vs : List String) : String :=
  vs.getLastD a

/-- Total scalar weight of the path `a :: vs`. -/
def chainCost (W : OWeights) (g : List BEdge) : String → List String → ℚ
  | _, [] => 0
  | a, v :: rest => stepW W g a v + chainCost W g v rest

/-- An entry of the Dijkstra search: a vertex, its (tentative or
settled) distance from the source, and a source-to-vertex path
realizing that distance. -/
structure SEntry where
  node : String
  dist : ℚ
  path : List String
deriving DecidableEq

/-- The vertices of the settled entries. -/
def settledNodes (S : List SEntry) : List String :=
  S.map (·.node)

/-- All one-edge relaxations out of the settled set: for every settled
entry `u` and unsettled vertex `v` of the graph joined to `u.node` by
an edge, the tentative entry for `v` through `u`. -/
def relaxCands (W : OWeights) (g : List BEdge) (verts : List String)
    (S : List SEntry) : List SEntry :=
  S.flatMap (fun u =>
    (verts.filter (fun v => !(settledNodes S).contains v)).filterMap (fun v =>
      match lookupEdge g u.node v with
      | some e => some ⟨v, u.dist + edgeWeight W e, u.path ++ [v]⟩
      | none => none))

/-- Least-distance entry of a candidate list (first minimum wins). -/
def pickMin : List SEntry → Option SEntry
  | [] => none
  | c :: cs =>
    match pickMin cs with
    | none => some c
    | some m => if c.dist ≤ m.dist then some c else some m

/-- The Dijkstra main loop (the semantics of `nx.dijkstra_path`): if the
target is settled, return its entry; otherwise settle the tentative
entry of least distance and recurse.  The fuel is only a structural
termination device: every iteration settles a distinct vertex drawn
from `verts`, so `verts.length + 1` units never run out. -/
def dijkstraLoop (W : OWeights) (g : List BEdge) (verts : List String)
    (target : String) : ℕ → List SEntry → Option SEntry
  | 0, _ => none
  | fuel + 1, S =>
    match S.find? (fun u => u.node == target) with
    | some u => some u
    | none =>
      match pickMin (relaxCands W g verts S) with
      | none => none
      | some c => dijkstraLoop W g verts target fuel (c :: S)

/-- Dijkstra from `s` to `t`: start with the source settled at distance
`0` with the trivial path. -/
def dijkstra (W : OWeights) (g : List BEdge) (verts : List String)
    (s t : String) : Option SEntry :=
  dijkstraLoop W g verts t (verts.length + 1) [⟨s, 0, [s]⟩]

/-- The traversed edges of a path, by consecutive-pair adjacency lookup
(`self.graph[u][v]` along the returned path; every pair of a returned
path has an edge). -/
def routeEdges (g : List BEdge) : List String → List BEdge
  | u :: v :: rest =>
    (match lookupEdge g u v with
     | some e => [e]
     | none => []) ++ routeEdges g (v :: rest)
  | _ => []

/-- The route object `find_shortest_path` returns: path, traversed
edges, aggregated metrics, node count. -/
structure Route where
  path : List String
  edges : List BEdge
  duration : ℚ
  emissions : ℚ
  cost : ℚ
  total_nodes : ℕ
deriving DecidableEq

/-- Assemble the route object for a found path. -/
def mkRoute (g : List BEdge) (p : List String) : Route :=
  let es := routeEdges g p
  { path := p, edges := es,
    duration := (es.map (·.duration)).sum,
    emissions := (es.map (·.emissions)).sum,
    cost := (es.map (·.cost)).sum,
    total_nodes := p.length }

/-- `FreightSimulation.find_shortest_path`: `None` when either id is
missing from the registry, `None` when either endpoint is blocked,
`None` when Dijkstra finds no path (`NetworkXNoPath`), and otherwise
the route object of the found path. -/
def find_shortest_path (s : SimState) (source_id target_id : String) :
    Option Route :=
  match getNode s source_id, getNode s target_id with
  | some ns, some nt =>
    if ns.blocked || nt.blocked then none
    else
      (dijkstra s.weights s.graph (s.nodes.map (·.id)) source_id target_id).map
        (fun u => mkRoute s.graph u.path)
  | _, _ => none

/-- Invariant of the Dijkstra loop: the source is settled; every
settled entry records an actual source-to-entry path realizing its
distance; and every settled distance is minimal over all
source-to-entry paths in the graph. -/
structure DijkInv (W : OWeights) (g : List BEdge) (src : String)
    (S : List SEntry) : Prop where
  src_mem : src ∈ settledNodes S
  achieves : ∀ u ∈ S, ∃ vs, u.path = src :: vs ∧ IsChain g src vs ∧
    lastOf src vs = u.node ∧ chainCost W g src vs = u.dist
  minimal : ∀ u ∈ S, ∀ vs, IsChain g src vs → lastOf src vs = u.node →
    u.dist ≤ chainCost W g src vs

/-! Concrete states used to instantiate the theorems below. -/

/-- Empty weather grid with the default 5-degree blocks. -/
def demoWG : WeatherGrid := ⟨5, []⟩

/-- The default objective weights (0.4, 0.3, 0.3). -/
def demoWeights : OWeights := ⟨2 / 5, 3 / 10, 3 / 10⟩

/-- Demo node A. -/
def demoNodeA : SimNode := ⟨"A", 0, 0, "Port A", "seaport", "X", 0, false, 2⟩

/-- Demo node B. -/
def demoNodeB : SimNode := ⟨"B", 0, 1, "Port B", "seaport", "X", 0, false, 2⟩

/-- Demo node C. -/
def demoNodeC : SimNode := ⟨"C", 0, 2, "Port C", "seaport", "X", 0, false, 2⟩

/-- Demo edges: a cheap two-leg route A-B-C and an expensive direct A-C. -/
def demoEdges : List SimEdge :=
  [⟨"A", "B", "ship", 1, 1, 1⟩, ⟨"B", "C", "ship", 1, 1, 1⟩,
   ⟨"A", "C", "ship", 10, 10, 10⟩]

/-- A three-node demo simulation state. -/
def demoSim : SimState :=
  { nodes := [demoNodeA, demoNodeB, demoNodeC], edges := demoEdges,
    weather_grid := demoWG, pain_points := [], weights := demoWeights,
    graph := build_graph [demoNodeA, demoNodeB, demoNodeC] demoEdges demoWG }

/-- The optimal route of `demoSim` from A to C. -/
def demoRoute : Route :=
  { path := ["A", "B", "C"],
    edges := [⟨"A", "B", "ship", 1, 1, 1, 0⟩, ⟨"B", "C", "ship", 1, 1, 1, 0⟩],
    duration := 2, emissions := 2, cost := 2, total_nodes := 3 }

/-- A state carrying one blocking pain point on B (the state
`add_pain_point` produces from `demoSim`), used for removal
theorems. -/
def ppSim : SimState :=
  { nodes := [demoNodeA, ⟨"B", 0, 1, "Port B", "seaport", "X", 5, true, 2⟩, demoNodeC],
    edges := demoEdges, weather_grid := demoWG,
    pain_points := [⟨"B", "strike", "Dock strike", 5, true⟩],
    weights := demoWeights,
    graph := build_graph
      [demoNodeA, ⟨"B", 0, 1, "Port B", "seaport", "X", 5, true, 2⟩, demoNodeC]
      demoEdges demoWG }

/-- A state whose single node is already blocked. -/
def blockedSim : SimState :=
  let n : SimNode := ⟨"A", 0, 0, "Port A", "seaport", "X", 0, true, 0⟩
  { nodes := [n], edges := [], weather_grid := demoWG, pain_points := [],
    weights := demoWeights, graph := build_graph [n] [] demoWG }

/-- Two registered, unblocked nodes and no edges at all. -/
def twoNodeSim : SimState :=
  { nodes := [demoNodeA, demoNodeB], edges := [], weather_grid := demoWG,
    pain_points := [], weights := demoWeights,
    graph := build_graph [demoNodeA, demoNodeB] [] demoWG }

/-- A single leg A to B on favourable weather. -/
def lineEdges : List SimEdge := [⟨"A", "B", "ship", 1, 1, 1⟩]

/-- The built form of the single A-to-B leg under clear weather and no
delay. -/
def lineBEdge : BEdge := ⟨"A", "B", "ship", 1, 1, 1, 0⟩

/-! Helper lemmas about registry lookup under node updates. -/

/-- `find?` by id commutes with mapping an id-preserving update over the
registry. -/
theorem findNode_map_of_id (f : SimNode → SimNode) (hf : ∀ m, (f m).id = m.id)
    (nodes : List SimNode) (nid : String) :
    findNode (nodes.map f) nid = (findNode nodes nid).map f := by
  unfold findNode
  rw [List.find?_map]
  have hp : ((fun m => m.id == nid) ∘ f) = fun m => m.id == nid := by
    funext m
    simp [Function.comp_apply, hf]
  rw [hp]

/-- A successful registry lookup returns a node with the requested id. -/
theorem findNode_id_of_some {nodes : List SimNode} {nid : String} {m : SimNode}
    (h : findNode nodes nid = some m) : m.id = nid := by
  have := List.find?_some h
  simpa using this

/-- A successful registry lookup returns a member of the registry. -/
theorem findNode_mem {nodes : List SimNode} {nid : String} {m : SimNode}
    (h : findNode nodes nid = some m) : m ∈ nodes :=
  List.mem_of_find?_eq_some h

/-- A successful registry lookup makes the `nid in self.nodes` test
succeed. -/
theorem any_id_of_findNode {nodes : List SimNode} {nid : String} {m : SimNode}
    (h : findNode nodes nid = some m) :
    nodes.any (fun x => x.id == nid) = true :=
  List.any_eq_true.mpr ⟨m, findNode_mem h, by simp [findNode_id_of_some h]⟩

/-- A failing `nid in self.nodes` test means the lookup fails. -/
theorem findNode_none_of_any_false {nodes : List SimNode} {nid : String}
    (h : nodes.any (fun x => x.id == nid) = false) :
    findNode nodes nid = none := by
  rw [findNode, List.find?_eq_none]
  intro x hx hpx
  have : nodes.any (fun x => x.id == nid) = true := List.any_eq_true.mpr ⟨x, hx, hpx⟩
  rw [this] at h
  cases h

/-- Last element of a concatenation `l ++ [x]` at index `l.length`. -/
theorem get_concat_length {α : Type} (l : List α) (x : α) (h : l.length < (l ++ [x]).length) :
    (l ++ [x]).get ⟨l.length, h⟩ = x := by
  induction l with
  | nil => rfl
  | cons a t ih => exact ih (by simp)

/-- Erasing the last element of a concatenation `l ++ [x]` recovers `l`. -/
theorem eraseIdx_concat_length {α : Type} (l : List α) (x : α) :
    (l ++ [x]).eraseIdx l.length = l := by
  induction l with
  | nil => rfl
  | cons a t ih => simpa [List.eraseIdx] using ih

/-- C2 (counterexample): adding a pain point with `blocked = false` to a
node that is already blocked UNBLOCKS it — the node's flag is plainly
assigned the supplied argument, not OR-ed with the previous value. -/
theorem add_pain_point_or_claim_cex :
    (getNode (add_pain_point blockedSim "A" "strike" "Dock strike" 0 false).1 "A").map
        (fun m => m.blocked) ≠ some (false || true) ∧
    (getNode blockedSim "A").map (fun m => m.blocked) = some true := by
  decide

/-- C2 (amended): after `add_pain_point` on a registered node, the
node's `blocked` flag equals the supplied `blocked` argument (plain
assignment, regardless of the previous flag). -/
theorem add_pain_point_assigns_blocked (s : SimState) (nid et nm : String) (d : ℚ) (b : Bool)
    (node' : SimNode)
    (h : getNode (add_pain_point s nid et nm d b).1 nid = some node') :
    node'.blocked = b := by
  by_cases hany : s.nodes.any (fun m => m.id == nid) = true
  · rw [add_pain_point, if_pos hany] at h
    rw [getNode] at h
    dsimp only at h
    rw [findNode_map_of_id _ (fun m => by split <;> rfl)] at h
    cases hfind : findNode s.nodes nid with
    | none => rw [hfind] at h; cases h
    | some m =>
      rw [hfind] at h
      have hid : (m.id == nid) = true := by simp [findNode_id_of_some hfind]
      rw [Option.map_some', if_pos hid, Option.some.injEq] at h
      rw [← h]
  · rw [add_pain_point, if_neg hany] at h
    rw [getNode, findNode_none_of_any_false (Bool.eq_false_iff.mpr hany)] at h
    cases h

/-- C3: after removing a valid pain-point index, the referenced node's
`blocked` flag is exactly the OR, over the remaining pain points that
reference that node, of their `blocked` flags. -/
theorem remove_pain_point_blocked_or (s : SimState) (index : ℕ) (pp : PainPoint)
    (node' : SimNode)
    (hpp : s.pain_points[index]? = some pp)
    (h : getNode (remove_pain_point s index).1 pp.node_id = some node') :
    node'.blocked = ((s.pain_points.eraseIdx index).any
      (fun q => q.node_id == pp.node_id && q.blocked)) := by
  rw [List.getElem?_eq_some_iff] at hpp
  obtain ⟨hlt, hget⟩ := hpp
  rw [remove_pain_point, dif_pos hlt] at h
  rw [getNode] at h
  dsimp only at h
  rw [show s.pain_points.get ⟨index, hlt⟩ = pp from hget] at h
  rw [findNode_map_of_id _ (fun m => by split <;> rfl)] at h
  cases hfind : findNode s.nodes pp.node_id with
  | none =>
    rw [hfind] at h
    cases h
  | some m =>
    rw [hfind] at h
    have hid : (m.id == pp.node_id) = true := by simp [findNode_id_of_some hfind]
    rw [Option.map_some', if_pos hid, Option.some.injEq] at h
    rw [← h]

/-- C4 (counterexample): `add_pain_point` adds the delay increase with
no clamping, so a 30-hour pain point pushes a node's delay to 30,
strictly above the 24-hour ceiling. -/
theorem delay_clamp_cex :
    (getNode (add_pain_point demoSim "A" "strike" "Storm" 30 false).1 "A").map
        (fun m => m.delay) = some 30 ∧ ¬ ((30 : ℚ) ≤ 24) := by
  constructor
  · norm_num [add_pain_point, demoSim, demoNodeA, demoNodeB, demoNodeC, getNode,
      findNode, findNode_map_of_id]
  · norm_num

/-- C4 (amended): `update_port_delay` alone does clamp: any node it
returns for the updated id has delay within `[0, 24]`. -/
theorem update_port_delay_clamps (s : SimState) (nid : String) (hours : ℚ) (node' : SimNode)
    (h : getNode (update_port_delay s nid hours) nid = some node') :
    0 ≤ node'.delay ∧ node'.delay ≤ 24 := by
  by_cases hany : s.nodes.any (fun m => m.id == nid) = true
  · rw [update_port_delay, if_pos hany] at h
    rw [getNode] at h
    dsimp only at h
    rw [findNode_map_of_id _ (fun m => by split <;> rfl)] at h
    cases hfind : findNode s.nodes nid with
    | none => rw [hfind] at h; cases h
    | some m =>
      rw [hfind] at h
      have hid : (m.id == nid) = true := by simp [findNode_id_of_some hfind]
      rw [Option.map_some', if_pos hid, Option.some.injEq] at h
      rw [← h]
      refine ⟨le_max_left _ _, max_le (by norm_num) (min_le_left _ _)⟩
  · rw [update_port_delay, if_neg hany] at h
    rw [getNode, findNode_none_of_any_false (Bool.eq_false_iff.mpr hany)] at h
    cases h

/-- C5 (counterexample): the unknown-node outcome and the no-route
outcome of `find_shortest_path` are the same value `none`: querying the
unknown id Z and querying the reachable-registry-but-edgeless pair A, B
are indistinguishable. -/
theorem unknown_vs_noroute_cex :
    find_shortest_path twoNodeSim "A" "Z" = none ∧
    find_shortest_path twoNodeSim "A" "B" = none ∧
    getNode twoNodeSim "Z" = none ∧
    getNode twoNodeSim "A" ≠ none ∧ getNode twoNodeSim "B" ≠ none := by
  decide

/-- C5 (amended): `find_shortest_path` returns `none` whenever either
id is absent from the registry (the same `none` that signals no
route). -/
theorem find_shortest_path_unknown_none (s : SimState) (a b : String)
    (h : getNode s a = none ∨ getNode s b = none) :
    find_shortest_path s a b = none := by
  rcases h with h | h
  · rw [find_shortest_path, h]
  · rw [find_shortest_path, h]
    cases getNode s a <;> rfl

/-- C6 (counterexample): block keys are computed with `int()`
truncation toward zero, not floor division: latitudes -3 and 3 share
the default-grid block even though their floor quotients differ. -/
theorem get_block_key_floor_cex :
    demoWG.get_block_key (-3) 0 = demoWG.get_block_key 3 0 ∧
    ⌊((-3 : ℚ) / demoWG.grid_size)⌋ ≠ ⌊((3 : ℚ) / demoWG.grid_size)⌋ := by
  have hgs : demoWG.grid_size = 5 := rfl
  constructor
  · rw [WeatherGrid.get_block_key, WeatherGrid.get_block_key, hgs]
    have h1 : pytrunc ((-3 : ℚ) / 5) = 0 := by
      rw [pytrunc, if_neg (by norm_num)]
      norm_num
    have h2 : pytrunc ((3 : ℚ) / 5) = 0 := by
      rw [pytrunc, if_pos (by norm_num)]
      norm_num
    rw [h1, h2]
  · rw [hgs]
    norm_num

/-- C6 (amended): for a positive grid size, two points share a weather
block exactly when their coordinates have the same
truncated-toward-zero quotients by the grid size. -/
theorem get_block_key_eq_iff (wg : WeatherGrid) (hgs : 0 < wg.grid_size)
    (lat1 lon1 lat2 lon2 : ℚ) :
    wg.get_block_key lat1 lon1 = wg.get_block_key lat2 lon2 ↔
      (pytrunc (lat1 / wg.grid_size) = pytrunc (lat2 / wg.grid_size) ∧
       pytrunc (lon1 / wg.grid_size) = pytrunc (lon2 / wg.grid_size)) := by
  rw [WeatherGrid.get_block_key, WeatherGrid.get_block_key, Prod.ext_iff]
  have hne : wg.grid_size ≠ 0 := ne_of_gt hgs
  constructor
  · rintro ⟨h1, h2⟩
    constructor
    · exact_mod_cast mul_right_cancel₀ hne h1
    · exact_mod_cast mul_right_cancel₀ hne h2
  · rintro ⟨h1, h2⟩
    rw [h1, h2]
    exact ⟨rfl, rfl⟩

/-- C7: every edge of a rebuilt effective graph has both endpoints
registered and unblocked — edges incident to a blocked node are
excluded entirely. -/
theorem build_graph_excludes_blocked (nodes : List SimNode) (edges : List SimEdge)
    (wg : WeatherGrid) (e : BEdge) (he : e ∈ build_graph nodes edges wg) :
    ∃ ns nd, findNode nodes e.src = some ns ∧ findNode nodes e.dst = some nd ∧
      ns.blocked = false ∧ nd.blocked = false := by
  rw [build_graph, List.mem_filterMap] at he
  obtain ⟨a, -, ha⟩ := he
  cases hs : findNode nodes a.source with
  | none => rw [hs] at ha; cases hd : findNode nodes a.destination <;> rw [hd] at ha <;> cases ha
  | some ns =>
    cases hd : findNode nodes a.destination with
    | none => rw [hs, hd] at ha; cases ha
    | some nd =>
      rw [hs, hd] at ha
      dsimp only at ha
      by_cases hb : (ns.blocked || nd.blocked) = true
      · rw [if_pos hb] at ha; cases ha
      · rw [if_neg hb] at ha
        simp only [Option.some.injEq] at ha
        have hsrc : e.src = a.source := by rw [← ha]
        have hdst : e.dst = a.destination := by rw [← ha]
        simp only [Bool.or_eq_true, not_or, Bool.not_eq_true] at hb
        exact ⟨ns, nd, hsrc ▸ hs, hdst ▸ hd, hb.1, hb.2⟩

/-- C8 (counterexample): `update_weights` skips normalization when the
assigned total is not positive, so setting all three weights to zero
leaves them summing to 0, not 1. -/
theorem update_weights_zero_cex :
    sumW (update_weights demoSim (some 0) (some 0) (some 0)).weights = 0 ∧
    (0 : ℚ) ≠ 1 := by
  constructor
  · norm_num [update_weights, applyWeightArgs, sumW, demoSim, demoWeights]
  · norm_num

/-- C8 (amended): whenever the weights as assigned have positive sum,
`update_weights` renormalizes them to sum exactly to 1. -/
theorem update_weights_sum_one (s : SimState) (d e c : Option ℚ)
    (h : 0 < sumW (applyWeightArgs s.weights d e c)) :
    sumW (update_weights s d e c).weights = 1 := by
  rw [update_weights]
  rw [if_pos h]
  show (applyWeightArgs s.weights d e c).duration / sumW (applyWeightArgs s.weights d e c) +
      (applyWeightArgs s.weights d e c).emissions / sumW (applyWeightArgs s.weights d e c) +
      (applyWeightArgs s.weights d e c).cost / sumW (applyWeightArgs s.weights d e c) = 1
  rw [div_add_div_same, div_add_div_same, ← sumW, div_self (ne_of_gt h)]

/-- C10: on an unblocked node with no pain point referencing it, adding
a pain point and removing it again (at its index, the old list length)
restores the node record exactly and leaves the pain-point list as it
was. -/
theorem add_remove_pain_point_roundtrip (s : SimState) (nid et nm : String) (d : ℚ) (b : Bool)
    (node : SimNode)
    (h1 : getNode s nid = some node) (h2 : node.blocked = false)
    (h3 : ∀ pp ∈ s.pain_points, pp.node_id ≠ nid) :
    getNode (remove_pain_point (add_pain_point s nid et nm d b).1 s.pain_points.length).1 nid
        = some node ∧
    (remove_pain_point (add_pain_point s nid et nm d b).1 s.pain_points.length).1.pain_points
        = s.pain_points := by
  have hany := any_id_of_findNode h1
  rw [add_pain_point, if_pos hany]
  dsimp only
  have hlen : s.pain_points.length <
      (s.pain_points ++ [(⟨nid, et, nm, d, b⟩ : PainPoint)]).length := by
    simp
  rw [remove_pain_point, dif_pos hlen]
  dsimp only
  rw [get_concat_length, eraseIdx_concat_length]
  have hrem : (s.pain_points.any (fun q => q.node_id == nid && q.blocked)) = false := by
    by_contra hc
    obtain ⟨q, hq, hpq⟩ := List.any_eq_true.mp (Bool.of_not_eq_false hc)
    rw [Bool.and_eq_true, beq_iff_eq] at hpq
    exact h3 q hq hpq.1
  rw [getNode]
  dsimp only
  rw [findNode_map_of_id _ (fun m => by split <;> rfl)]
  rw [findNode_map_of_id _ (fun m => by split <;> rfl)]
  rw [show findNode s.nodes nid = some node from h1]
  have hid : (node.id == nid) = true := by simp [findNode_id_of_some h1]
  refine ⟨?_, rfl⟩
  rw [Option.map_some', Option.map_some', Option.some.injEq]
  rw [if_pos hid]
  dsimp only
  rw [if_pos hid, hrem]
  cases node with
  | mk id lat lon name type country delay blocked cc =>
    dsimp only at h2
    subst h2
    simp [SimNode.mk.injEq]

/-! The Dijkstra correctness development. -/

/-- A successful adjacency lookup returns a stored edge of the graph. -/
theorem lookupEdge_mem {g : List BEdge} {u v : String} {e : BEdge}
    (h : lookupEdge g u v = some e) : e ∈ g :=
  List.mem_reverse.mp (List.mem_of_find?_eq_some h)

/-- A successful adjacency lookup returns an edge with the requested
source. -/
theorem lookupEdge_src {g : List BEdge} {u v : String} {e : BEdge}
    (h : lookupEdge g u v = some e) : e.src = u := by
  have := List.find?_some h
  rw [Bool.and_eq_true, beq_iff_eq, beq_iff_eq] at this
  exact this.1.symm

/-- A successful adjacency lookup returns an edge with the requested
destination. -/
theorem lookupEdge_dst {g : List BEdge} {u v : String} {e : BEdge}
    (h : lookupEdge g u v = some e) : e.dst = v := by
  have := List.find?_some h
  rw [Bool.and_eq_true, beq_iff_eq, beq_iff_eq] at this
  exact this.2.symm

/-- On an existing edge, the step weight is the weight of the stored
edge. -/
theorem stepW_of_lookup {W : OWeights} {g : List BEdge} {u v : String} {e : BEdge}
    (h : lookupEdge g u v = some e) : stepW W g u v = edgeWeight W e := by
  rw [stepW, h]

/-- `hasEdge` as the existence of a successful lookup. -/
theorem hasEdge_iff {g : List BEdge} {u v : String} :
    hasEdge g u v = true ↔ ∃ e, lookupEdge g u v = some e := by
  rw [hasEdge, Option.isSome_iff_exists]

/-- When all stored edge weights are non-negative, every step along an
existing edge has non-negative weight. -/
theorem stepW_nonneg {W : OWeights} {g : List BEdge} {u v : String}
    (HW : ∀ e ∈ g, 0 ≤ edgeWeight W e) (h : hasEdge g u v = true) :
    0 ≤ stepW W g u v := by
  obtain ⟨e, hl⟩ := hasEdge_iff.mp h
  rw [stepW_of_lookup hl]
  exact HW e (lookupEdge_mem hl)

/-- When all stored edge weights are non-negative, every path has
non-negative total weight. -/
theorem chainCost_nonneg {W : OWeights} {g : List BEdge}
    (HW : ∀ e ∈ g, 0 ≤ edgeWeight W e) :
    ∀ (vs : List String) (a : String), IsChain g a vs → 0 ≤ chainCost W g a vs := by
  intro vs
  induction vs with
  | nil => intro a _; exact le_refl 0
  | cons v rest ih =>
    intro a hc
    obtain ⟨he, hrest⟩ := hc
    have h1 := stepW_nonneg HW he
    have h2 := ih v hrest
    rw [chainCost]
    linarith

/-- Final vertex of a path extended from a first step. -/
theorem lastOf_cons {a v : String} {rest : List String} :
    lastOf a (v :: rest) = lastOf v rest := by
  rw [lastOf, lastOf, List.getLastD_cons]

/-- Final vertex of a path extended by one vertex. -/
theorem lastOf_concat {a v : String} {vs : List String} :
    lastOf a (vs ++ [v]) = v := by
  rw [lastOf, List.getLastD_concat]

/-- Extending a path by an edge out of its final vertex yields a
path. -/
theorem IsChain_concat {g : List BEdge} :
    ∀ (vs : List String) (a v : String), IsChain g a vs →
      hasEdge g (lastOf a vs) v = true → IsChain g a (vs ++ [v]) := by
  intro vs
  induction vs with
  | nil =>
    intro a v _ he
    exact ⟨he, trivial⟩
  | cons w rest ih =>
    intro a v hc he
    obtain ⟨hw, hrest⟩ := hc
    rw [lastOf_cons] at he
    exact ⟨hw, ih w v hrest he⟩

/-- Total weight of a path extended by one vertex. -/
theorem chainCost_concat {W : OWeights} {g : List BEdge} :
    ∀ (vs : List String) (a v : String),
      chainCost W g a (vs ++ [v]) =
        chainCost W g a vs + stepW W g (lastOf a vs) v := by
  intro vs
  induction vs with
  | nil =>
    intro a v
    rw [List.nil_append, chainCost, chainCost, chainCost]
    rw [show lastOf a [] = a from rfl]
    ring
  | cons w rest ih =>
    intro a v
    rw [List.cons_append, chainCost, chainCost, ih w v, lastOf_cons]
    ring

/-- `pickMin` returns `none` only on the empty candidate list. -/
theorem pickMin_eq_none : ∀ {cs : List SEntry}, pickMin cs = none ↔ cs = [] := by
  intro cs
  cases cs with
  | nil => simp [pickMin]
  | cons x xs =>
    rw [pickMin]
    constructor
    · intro h
      cases hxs : pickMin xs <;> rw [hxs] at h <;> dsimp only at h
      · cases h
      · split at h <;> cases h
    · intro h
      cases h

/-- `pickMin` returns an element of its argument. -/
theorem pickMin_mem : ∀ {cs : List SEntry} {c : SEntry},
    pickMin cs = some c → c ∈ cs := by
  intro cs
  induction cs with
  | nil => intro c h; cases h
  | cons x xs ih =>
    intro c h
    rw [pickMin] at h
    cases hxs : pickMin xs with
    | none =>
      rw [hxs] at h
      dsimp only at h
      injection h with h
      exact h ▸ List.mem_cons_self x xs
    | some m =>
      rw [hxs] at h
      dsimp only at h
      by_cases hle : x.dist ≤ m.dist
      · rw [if_pos hle] at h
        injection h with h
        exact h ▸ List.mem_cons_self x xs
      · rw [if_neg hle] at h
        injection h with h
        exact List.mem_cons_of_mem x (h ▸ ih hxs)

/-- `pickMin` returns an entry of least distance. -/
theorem pickMin_le : ∀ {cs : List SEntry} {c : SEntry},
    pickMin cs = some c → ∀ x ∈ cs, c.dist ≤ x.dist := by
  intro cs
  induction cs with
  | nil => intro c h; cases h
  | cons y xs ih =>
    intro c h x hx
    rw [pickMin] at h
    cases hxs : pickMin xs with
    | none =>
      rw [hxs] at h
      dsimp only at h
      injection h with h
      subst h
      rcases List.mem_cons.mp hx with rfl | hxxs
      · exact le_refl _
      · rw [pickMin_eq_none.mp hxs] at hxxs
        cases hxxs
    | some m =>
      rw [hxs] at h
      dsimp only at h
      by_cases hle : y.dist ≤ m.dist
      · rw [if_pos hle] at h
        injection h with h
        subst h
        rcases List.mem_cons.mp hx with rfl | hxxs
        · exact le_refl _
        · exact le_trans hle (ih hxs x hxxs)
      · rw [if_neg hle] at h
        injection h with h
        subst h
        rcases List.mem_cons.mp hx with rfl | hxxs
        · exact le_of_not_le hle
        · exact ih hxs x hxxs

/-- Membership in the relaxation candidate list. -/
theorem mem_relaxCands {W : OWeights} {g : List BEdge} {verts : List String}
    {S : List SEntry} {c : SEntry} :
    c ∈ relaxCands W g verts S ↔
      ∃ u, u ∈ S ∧ ∃ v, v ∈ verts ∧ v ∉ settledNodes S ∧ ∃ e,
        lookupEdge g u.node v = some e ∧
        c = ⟨v, u.dist + edgeWeight W e, u.path ++ [v]⟩ := by
  rw [relaxCands, List.mem_flatMap]
  constructor
  · rintro ⟨u, hu, hc⟩
    rw [List.mem_filterMap] at hc
    obtain ⟨v, hv, hfv⟩ := hc
    rw [List.mem_filter] at hv
    obtain ⟨hvverts, hvb⟩ := hv
    cases hl : lookupEdge g u.node v with
    | none => rw [hl] at hfv; cases hfv
    | some e =>
      rw [hl] at hfv
      injection hfv with hfv
      refine ⟨u, hu, v, hvverts, ?_, e, hl, hfv.symm⟩
      simpa using hvb
  · rintro ⟨u, hu, v, hvv, hvs, e, hl, rfl⟩
    refine ⟨u, hu, ?_⟩
    rw [List.mem_filterMap]
    refine ⟨v, ?_, by rw [hl]⟩
    rw [List.mem_filter]
    exact ⟨hvv, by simpa using hvs⟩

/-- The exit bound: while the chosen candidate `c` is being settled,
any path that starts at a settled vertex and ends outside the settled
set costs, together with the settled start distance, at least
`c.dist`. -/
theorem dijk_exit_bound {W : OWeights} {g : List BEdge} {verts : List String}
    {S : List SEntry} {c : SEntry} {src : String}
    (HW : ∀ e ∈ g, 0 ≤ edgeWeight W e) (HV : ∀ e ∈ g, e.dst ∈ verts)
    (hInv : DijkInv W g src S)
    (hc : pickMin (relaxCands W g verts S) = some c) :
    ∀ (vs : List String) (a : String) (u : SEntry), u ∈ S → u.node = a →
      IsChain g a vs → lastOf a vs ∉ settledNodes S →
      c.dist ≤ u.dist + chainCost W g a vs := by
  intro vs
  induction vs with
  | nil =>
    intro a u huS hua _ hlast
    exact absurd (List.mem_map.mpr ⟨u, huS, hua⟩) hlast
  | cons v rest ih =>
    intro a u huS hua hchain hlast
    subst hua
    obtain ⟨hE, hrest⟩ := hchain
    obtain ⟨e, hl⟩ := hasEdge_iff.mp hE
    rw [chainCost, stepW_of_lookup hl]
    rw [lastOf_cons] at hlast
    by_cases hv : v ∈ settledNodes S
    · obtain ⟨u', hu'S, hu'v⟩ := List.mem_map.mp hv
      have hstep : u'.dist ≤ u.dist + edgeWeight W e := by
        obtain ⟨vs₀, hp, hch₀, hl₀, hc₀⟩ := hInv.achieves u huS
        have hch₁ : IsChain g src (vs₀ ++ [v]) :=
          IsChain_concat vs₀ src v hch₀ (by rw [hl₀]; exact hE)
        have hmin := hInv.minimal u' hu'S (vs₀ ++ [v]) hch₁
          (by rw [lastOf_concat, hu'v])
        rw [chainCost_concat, hl₀, stepW_of_lookup hl, hc₀] at hmin
        exact hmin
      have hrec := ih v u' hu'S hu'v hrest hlast
      linarith
    · have hvverts : v ∈ verts := by
        rw [← lookupEdge_dst hl]
        exact HV e (lookupEdge_mem hl)
      have hcand : (⟨v, u.dist + edgeWeight W e, u.path ++ [v]⟩ : SEntry) ∈
          relaxCands W g verts S :=
        mem_relaxCands.mpr ⟨u, huS, v, hvverts, hv, e, hl, rfl⟩
      have hle := pickMin_le hc _ hcand
      dsimp only at hle
      have hnn : 0 ≤ chainCost W g v rest := chainCost_nonneg HW rest v hrest
      linarith

/-- Settling the least-distance candidate preserves the loop
invariant. -/
theorem dijkInv_cons {W : OWeights} {g : List BEdge} {verts : List String}
    {src : String} {S : List SEntry} {c : SEntry}
    (HW : ∀ e ∈ g, 0 ≤ edgeWeight W e) (HV : ∀ e ∈ g, e.dst ∈ verts)
    (hInv : DijkInv W g src S)
    (hc : pickMin (relaxCands W g verts S) = some c) :
    DijkInv W g src (c :: S) := by
  obtain ⟨u, huS, v, hvv, hvs, e, hl, hceq⟩ := mem_relaxCands.mp (pickMin_mem hc)
  constructor
  · rw [settledNodes, List.map_cons]
    exact List.mem_cons_of_mem _ hInv.src_mem
  · intro x hx
    rcases List.mem_cons.mp hx with rfl | hxS
    · obtain ⟨vs₀, hp, hch₀, hl₀, hc₀⟩ := hInv.achieves u huS
      refine ⟨vs₀ ++ [v], ?_, ?_, ?_, ?_⟩
      · rw [hceq]
        dsimp only
        rw [hp]
        rfl
      · exact IsChain_concat vs₀ src v hch₀
          (by rw [hl₀, hasEdge, hl]; rfl)
      · rw [lastOf_concat, hceq]
      · rw [chainCost_concat, hl₀, stepW_of_lookup hl, hc₀, hceq]
    · exact hInv.achieves x hxS
  · intro x hx vs hch hlast
    rcases List.mem_cons.mp hx with rfl | hxS
    · obtain ⟨u₀, hu₀S, hu₀⟩ := List.mem_map.mp hInv.src_mem
      have hnotmem : lastOf src vs ∉ settledNodes S := by
        rw [hlast, hceq]
        exact hvs
      have hbound := dijk_exit_bound HW HV hInv hc vs src u₀ hu₀S hu₀ hch hnotmem
      have hzero : u₀.dist ≤ 0 := by
        have h0 := hInv.minimal u₀ hu₀S [] trivial hu₀.symm
        rw [chainCost] at h0
        exact h0
      linarith
    · exact hInv.minimal x hxS vs hch hlast

/-- Soundness of the Dijkstra loop: any returned entry records a path
from the source to the target whose total weight is both realized and
minimal over all source-to-target paths. -/
theorem dijkstraLoop_sound {W : OWeights} {g : List BEdge} {verts : List String}
    {target src : String}
    (HW : ∀ e ∈ g, 0 ≤ edgeWeight W e) (HV : ∀ e ∈ g, e.dst ∈ verts) :
    ∀ (fuel : ℕ) (S : List SEntry) (u : SEntry), DijkInv W g src S →
      dijkstraLoop W g verts target fuel S = some u →
      (∃ vs, u.path = src :: vs ∧ IsChain g src vs ∧ lastOf src vs = target ∧
        chainCost W g src vs = u.dist) ∧
      (∀ vs, IsChain g src vs → lastOf src vs = target →
        u.dist ≤ chainCost W g src vs) := by
  intro fuel
  induction fuel with
  | zero => intro S u _ h; cases h
  | succ n ih =>
    intro S u hInv h
    rw [dijkstraLoop] at h
    cases hfind : S.find? (fun x => x.node == target) with
    | some x =>
      rw [hfind] at h
      dsimp only at h
      injection h with h
      subst h
      have hxS : x ∈ S := List.mem_of_find?_eq_some hfind
      have hx : x.node = target := by
        have := List.find?_some hfind
        simpa using this
      obtain ⟨vs, hp, hch, hl, hcost⟩ := hInv.achieves x hxS
      refine ⟨⟨vs, hp, hch, by rw [hl, hx], hcost⟩, ?_⟩
      intro vs' hch' hl'
      exact hInv.minimal x hxS vs' hch' (by rw [hl']; exact hx.symm)
    | none =>
      rw [hfind] at h
      cases hpick : pickMin (relaxCands W g verts S) with
      | none => rw [hpick] at h; cases h
      | some c =>
        rw [hpick] at h
        exact ih _ u (dijkInv_cons HW HV hInv hpick) h

/-- The starting configuration of the loop satisfies the invariant. -/
theorem dijkInv_init {W : OWeights} {g : List BEdge} {src : String}
    (HW : ∀ e ∈ g, 0 ≤ edgeWeight W e) :
    DijkInv W g src [⟨src, 0, [src]⟩] := by
  constructor
  · rw [settledNodes, List.map_cons]
    exact List.mem_cons_self _ _
  · intro u hu
    rw [List.mem_singleton] at hu
    subst hu
    exact ⟨[], rfl, trivial, rfl, rfl⟩
  · intro u hu vs hch _
    rw [List.mem_singleton] at hu
    subst hu
    exact chainCost_nonneg HW vs src hch

/-- C1: whenever the engine's edge weights are non-negative and the
built graph only targets registered vertices, any route returned by
`find_shortest_path` is a source-to-target path of the effective graph
whose total scalar weight is minimal among all source-to-target paths
of the effective graph. -/
theorem find_shortest_path_optimal (s : SimState) (source target : String) (r : Route)
    (HW : ∀ e ∈ s.graph, 0 ≤ edgeWeight s.weights e)
    (HV : ∀ e ∈ s.graph, e.dst ∈ s.nodes.map (fun m => m.id))
    (h : find_shortest_path s source target = some r) :
    ∃ vs, r.path = source :: vs ∧ IsChain s.graph source vs ∧
      lastOf source vs = target ∧
      ∀ vs', IsChain s.graph source vs' → lastOf source vs' = target →
        chainCost s.weights s.graph source vs ≤
          chainCost s.weights s.graph source vs' := by
  rw [find_shortest_path] at h
  cases hs : getNode s source with
  | none => rw [hs] at h; cases hT : getNode s target <;> rw [hT] at h <;> cases h
  | some ns =>
    cases hT : getNode s target with
    | none => rw [hs, hT] at h; cases h
    | some nt =>
      rw [hs, hT] at h
      dsimp only at h
      by_cases hb : (ns.blocked || nt.blocked) = true
      · rw [if_pos hb] at h; cases h
      · rw [if_neg hb] at h
        cases hd : dijkstra s.weights s.graph (s.nodes.map (fun m => m.id)) source target with
        | none => rw [hd] at h; cases h
        | some entry =>
          rw [hd, Option.map_some', Option.some.injEq] at h
          rw [dijkstra] at hd
          have hsound := dijkstraLoop_sound HW HV _ _ entry (dijkInv_init HW) hd
          obtain ⟨⟨vs, hp, hch, hl, hcost⟩, hmin⟩ := hsound
          refine ⟨vs, ?_, hch, hl, ?_⟩
          · rw [← h, mkRoute]
            exact hp
          · intro vs' hch' hl'
            rw [hcost]
            exact hmin vs' hch' hl'

/-- C9 (counterexample): for a registered but blocked node, the
source-equals-target query returns `none`, not the trivial single-node
route the claim promises for every registered node. -/
theorem find_shortest_path_self_blocked_cex :
    getNode blockedSim "A" ≠ none ∧
    find_shortest_path blockedSim "A" "A" = none := by
  decide

/-- C9 (amended): for a registered, unblocked node `a`, the query from
`a` to itself returns the trivial route: path `[a]`, no edges, zero
duration, emissions and cost, and node count 1. -/
theorem find_shortest_path_self (s : SimState) (a : String) (na : SimNode)
    (h1 : getNode s a = some na) (h2 : na.blocked = false) :
    find_shortest_path s a a =
      some { path := [a], edges := [], duration := 0, emissions := 0,
             cost := 0, total_nodes := 1 } := by
  rw [find_shortest_path, h1]
  dsimp only
  rw [if_neg (by rw [h2]; simp)]
  rw [dijkstra, dijkstraLoop]
  have hfind : List.find? (fun u => u.node == a) [(⟨a, 0, [a]⟩ : SEntry)] =
      some ⟨a, 0, [a]⟩ := by simp
  rw [hfind]
  rfl

/-! Witnesses: each theorem above with hypotheses applied at a concrete
input. -/

/-- Witness for C1 at a concrete state. -/
theorem find_shortest_path_optimal_witness :
    ∃ vs, Route.path ⟨["A"], [], 0, 0, 0, 1⟩ = "A" :: vs ∧
      IsChain twoNodeSim.graph "A" vs ∧ lastOf "A" vs = "A" ∧
      ∀ vs', IsChain twoNodeSim.graph "A" vs' → lastOf "A" vs' = "A" →
        chainCost twoNodeSim.weights twoNodeSim.graph "A" vs ≤
          chainCost twoNodeSim.weights twoNodeSim.graph "A" vs' :=
  find_shortest_path_optimal twoNodeSim "A" "A" ⟨["A"], [], 0, 0, 0, 1⟩
    (by decide) (by decide) (by decide)

/-- Witness for the amended C2 at a concrete state. -/
theorem add_pain_point_assigns_blocked_witness :
    SimNode.blocked ⟨"A", 0, 0, "Port A", "seaport", "X", 0, false, 0⟩ = false :=
  add_pain_point_assigns_blocked blockedSim "A" "strike" "Dock strike" 0 false
    ⟨"A", 0, 0, "Port A", "seaport", "X", 0, false, 0⟩
    (by norm_num [add_pain_point, blockedSim, getNode, findNode])

/-- Witness for C3 at a concrete state. -/
theorem remove_pain_point_blocked_or_witness :
    SimNode.blocked ⟨"B", 0, 1, "Port B", "seaport", "X", 0, false, 2⟩ =
      ((ppSim.pain_points.eraseIdx 0).any
        (fun q => q.node_id == PainPoint.node_id ⟨"B", "strike", "Dock strike", 5, true⟩ &&
          q.blocked)) :=
  remove_pain_point_blocked_or ppSim 0 ⟨"B", "strike", "Dock strike", 5, true⟩
    ⟨"B", 0, 1, "Port B", "seaport", "X", 0, false, 2⟩
    (by rfl)
    (by simp [ppSim, remove_pain_point, getNode, findNode, List.find?_cons,
      demoNodeA, demoNodeC])

/-- Witness for the amended C4 at a concrete state. -/
theorem update_port_delay_clamps_witness :
    0 ≤ SimNode.delay ⟨"A", 0, 0, "Port A", "seaport", "X", 24, false, 2⟩ ∧
    SimNode.delay ⟨"A", 0, 0, "Port A", "seaport", "X", 24, false, 2⟩ ≤ 24 :=
  update_port_delay_clamps demoSim "A" 30
    ⟨"A", 0, 0, "Port A", "seaport", "X", 24, false, 2⟩
    (by norm_num [update_port_delay, demoSim, getNode, findNode, demoNodeA,
      demoNodeB, demoNodeC])

/-- Witness for the amended C5 at a concrete state. -/
theorem find_shortest_path_unknown_none_witness :
    find_shortest_path twoNodeSim "A" "Z" = none :=
  find_shortest_path_unknown_none twoNodeSim "A" "Z" (Or.inr (by decide))

/-- Witness for the amended C6 at a concrete grid and points. -/
theorem get_block_key_eq_iff_witness :
    demoWG.get_block_key 7 3 = demoWG.get_block_key 8 4 ↔
      (pytrunc (7 / demoWG.grid_size) = pytrunc (8 / demoWG.grid_size) ∧
       pytrunc (3 / demoWG.grid_size) = pytrunc (4 / demoWG.grid_size)) :=
  get_block_key_eq_iff demoWG (by norm_num [demoWG]) 7 3 8 4

/-- Witness for C7 at a concrete graph with one built edge. -/
theorem build_graph_excludes_blocked_witness :
    ∃ ns nd, findNode [demoNodeA, demoNodeB] lineBEdge.src = some ns ∧
      findNode [demoNodeA, demoNodeB] lineBEdge.dst = some nd ∧
      ns.blocked = false ∧ nd.blocked = false :=
  build_graph_excludes_blocked [demoNodeA, demoNodeB] lineEdges demoWG lineBEdge
    (by simp [build_graph, lineEdges, lineBEdge, findNode, List.find?_cons,
      demoNodeA, demoNodeB, WeatherGrid.get_severity, demoWG])

/-- Witness for the amended C8 at a concrete update. -/
theorem update_weights_sum_one_witness :
    sumW (update_weights demoSim (some 2) (some 1) (some 1)).weights = 1 :=
  update_weights_sum_one demoSim (some 2) (some 1) (some 1)
    (by norm_num [sumW, applyWeightArgs, demoSim, demoWeights])

/-- Witness for the amended C9 at a concrete state. -/
theorem find_shortest_path_self_witness :
    find_shortest_path demoSim "A" "A" =
      some { path := ["A"], edges := [], duration := 0, emissions := 0,
             cost := 0, total_nodes := 1 } :=
  find_shortest_path_self demoSim "A" demoNodeA (by rfl) (by rfl)

/-- Witness for C10 at a concrete state. -/
theorem add_remove_pain_point_roundtrip_witness :
    getNode (remove_pain_point (add_pain_point demoSim "A" "strike" "Storm" 5 true).1
        demoSim.pain_points.length).1 "A" = some demoNodeA ∧
    (remove_pain_point (add_pain_point demoSim "A" "strike" "Storm" 5 true).1
        demoSim.pain_points.length).1.pain_points = demoSim.pain_points :=
  add_remove_pain_point_roundtrip demoSim "A" "strike" "Storm" 5 true demoNodeA
    (by rfl) (by rfl) (by simp [demoSim])

end Freight
